import Mathlib

/-!
Shallow embedding of the mosquitto-exporter core (main.go): the value
parser, the topic-to-name derivation, the classification tables, and the
metric registry update pipeline.  Machine floating point is abstracted by
exact rationals: every numeric token the regex can produce denotes a
rational, and the float64 overflow check of strconv.ParseFloat is modelled
by the magnitude bound of the largest finite float64.  The MosquittoCounter
type lives in a source file that is not present here; its Set operation is
modelled from the spec (values are replaced, reset writes zero).
-/

namespace Mosquitto

set_option maxRecDepth 8000

/-- One step of the greedy digit run of the regex: split a character list
into its longest all-digit-character leading run and the rest. -/
def takeDigits : List Char → List Char × List Char
  | [] => ([], [])
  | c :: cs =>
    if c.isDigit then
      let p := takeDigits cs
      (c :: p.1, p.2)
    else ([], c :: cs)

/-- The unsigned decimal alternative of the regex at the current position:
one or more digits, a dot, one or more digits.  Returns the matched token. -/
def tryDecCore (cs : List Char) : Option (List Char) :=
  if (takeDigits cs).1 = [] then none
  else if (takeDigits cs).2.head? = some '.' then
    if (takeDigits (takeDigits cs).2.tail).1 = [] then none
    else some ((takeDigits cs).1 ++ '.' :: (takeDigits (takeDigits cs).2.tail).1)
  else none

/-- The first alternative of the regex at the current position: an optional
minus sign followed by the decimal form.  The minus, when present, is
consumed; the regex only succeeds here if digits-dot-digits follow. -/
def tryDec (cs : List Char) : Option (List Char) :=
  match cs with
  | [] => none
  | c :: rest => if c = '-' then (tryDecCore rest).map (fun t => '-' :: t) else tryDecCore (c :: rest)

/-- The second alternative of the regex at the current position: one or
more digits. -/
def tryInt (cs : List Char) : Option (List Char) :=
  if (takeDigits cs).1 = [] then none else some (takeDigits cs).1

/-- Leftmost-first scan of the Go regular expression
-?\d+[.]\d+|\d+ : at each start position the decimal alternative is tried
before the integer one; the first position with a match wins. -/
def firstMatch : List Char → Option (List Char)
  | [] => none
  | c :: cs =>
    match tryDec (c :: cs) with
    | some t => some t
    | none =>
      match tryInt (c :: cs) with
      | some t => some t
      | none => firstMatch cs

/-- Value of a digit run, most significant first. -/
def digitsToNat (l : List Char) : Nat :=
  l.foldl (fun n c => 10 * n + (c.toNat - 48)) 0

/-- Value of an unsigned token: a digit run with an optional dot-separated
fractional digit run. -/
def magToQ (t : List Char) : ℚ :=
  if (takeDigits t).2.head? = some '.' then
    Rat.divInt
      ((digitsToNat (takeDigits t).1 * 10 ^ (takeDigits t).2.tail.length
          + digitsToNat (takeDigits t).2.tail : ℕ) : ℤ)
      ((10 ^ (takeDigits t).2.tail.length : ℕ) : ℤ)
  else ((digitsToNat (takeDigits t).1 : ℕ) : ℚ)

/-- Exact rational value denoted by a token of the regex (optional minus
sign, digits, optional fraction). -/
def tokenToQ (t : List Char) : ℚ :=
  if t.head? = some '-' then - magToQ t.tail else magToQ t

/-- Largest finite float64 magnitude, (2^53 - 1) * 2^971, written as an
explicit numeral so that it evaluates. -/
def maxFloat64 : ℚ := ((179769313486231570814527423731704356798070567525844996598917476803157260780028538760589558632766878171540458953514382464234321326889464182768467546703537516986049910576551282076245490090389328944075868508455133942304583236903222948165808559332123348274797826204144723168738177180919299881250404026184124858368 : ℕ) : ℚ)

/-- Model of strconv.ParseFloat on tokens produced by the regex: the token
always parses syntactically; the result is an error exactly when the
denoted value overflows the finite float64 range.  (In-range values are
represented exactly as rationals; float64 rounding is abstracted away.) -/
def parseFloat64 (t : List Char) : Option ℚ :=
  let q := tokenToQ t
  if -maxFloat64 ≤ q ∧ q ≤ maxFloat64 then some q else none

/-- parseValue from main.go: find the first match of the regex in the
payload, parse it as a float, and fall back to 0 when there is no match or
the parse fails. -/
def parseValue (payload : String) : ℚ :=
  match firstMatch payload.toList with
  | some t =>
    match parseFloat64 t with
    | some v => v
    | none => 0
  | none => 0

/-- Try to strip the pattern from the front of the list; some rest on
success (Go strings comparison at one position). -/
def dropPat : List Char → List Char → Option (List Char)
  | [], l => some l
  | _ :: _, [] => none
  | p :: ps, c :: cs => if c = p then dropPat ps cs else none

/-- Go strings.Replace(s, pat, "", 1): delete the first occurrence of the
pattern anywhere in the list, scanning left to right. -/
def replaceOnce (pat : List Char) : List Char → List Char
  | [] => []
  | c :: cs =>
    match dropPat pat (c :: cs) with
    | some rest => rest
    | none => c :: replaceOnce pat cs

/-- Go strings.Replace(s, a, b, -1) for single characters: replace every
occurrence. -/
def replaceChar (a b : Char) (l : List Char) : List Char :=
  l.map (fun c => if c = a then b else c)

/-- The four character substitutions of parseTopic, applied in source
order: / then space then - then . each to underscore. -/
def replaceSpecials (l : List Char) : List Char :=
  replaceChar '.' '_' (replaceChar '-' '_' (replaceChar ' ' '_' (replaceChar '/' '_' l)))

/-- parseTopic from main.go: delete the first occurrence of "$SYS/"
anywhere in the topic, then substitute the special characters. -/
def parseTopic (topic : String) : String :=
  String.mk (replaceSpecials (replaceOnce ("$SYS/".toList) topic.toList))

/-- Follows the words of claim C1: a numeric token is an integer or a
decimal number, in both cases optionally preceded by a minus sign. -/
def tryNumSpec (cs : List Char) : Option (List Char) :=
  match tryDecCore cs with
  | some t => some t
  | none => tryInt cs

/-- Follows the words of claim C1: the signed token form at one position. -/
def trySignedNumSpec (cs : List Char) : Option (List Char) :=
  match cs with
  | [] => none
  | c :: rest => if c = '-' then (tryNumSpec rest).map (fun t => '-' :: t) else tryNumSpec (c :: rest)

/-- Follows the words of claim C1: the first numeric token of a payload,
where a minus sign may precede an integer as well as a decimal token. -/
def specFirstToken : List Char → Option (List Char)
  | [] => none
  | c :: cs =>
    match trySignedNumSpec (c :: cs) with
    | some t => some t
    | none => specFirstToken cs

/-- Follows the words of claim C2: replace the prefix "$SYS/" with the
empty string, once and only if it occurs at the start of the topic, then
substitute the special characters. -/
def deriveNameSpec (topic : String) : String :=
  String.mk (replaceSpecials
    (match dropPat ("$SYS/".toList) topic.toList with
     | some rest => rest
     | none => topic.toList))

/-- The pattern occurs in the list starting at index i. -/
def occursAt (pat l : List Char) (i : Nat) : Prop :=
  (dropPat pat (l.drop i)).isSome = true

instance (pat l : List Char) (i : Nat) : Decidable (occursAt pat l i) :=
  inferInstanceAs (Decidable ((dropPat pat (l.drop i)).isSome = true))

/-- The static table of ignored topics from main.go. -/
def ignoreKeyMetrics : List (String × String) :=
  [("$SYS/broker/timestamp", "The timestamp at which this particular build of the broker was made. Static."),
   ("$SYS/broker/version", "The version of the broker. Static."),
   ("$SYS/broker/clients/active", "deprecated in favour of $SYS/broker/clients/connected"),
   ("$SYS/broker/clients/inactive", "deprecated in favour of $SYS/broker/clients/disconnected")]

/-- The static table of counter topics from main.go. -/
def counterKeyMetrics : List (String × String) :=
  [("$SYS/broker/bytes/received", "The total number of bytes received since the broker started."),
   ("$SYS/broker/bytes/sent", "The total number of bytes sent since the broker started."),
   ("$SYS/broker/messages/received", "The total number of messages of any type received since the broker started."),
   ("$SYS/broker/messages/sent", "The total number of messages of any type sent since the broker started."),
   ("$SYS/broker/publish/bytes/received", "The total number of PUBLISH bytes received since the broker started."),
   ("$SYS/broker/publish/bytes/sent", "The total number of PUBLISH bytes sent since the broker started."),
   ("$SYS/broker/publish/messages/received", "The total number of PUBLISH messages received since the broker started."),
   ("$SYS/broker/publish/messages/sent", "The total number of PUBLISH messages sent since the broker started."),
   ("$SYS/broker/publish/messages/dropped", "The total number of PUBLISH messages that have been dropped due to inflight/queuing limits."),
   ("$SYS/broker/uptime", "The total number of seconds since the broker started."),
   ("$SYS/broker/clients/maximum", "The maximum number of clients connected simultaneously since the broker started"),
   ("$SYS/broker/clients/total", "The total number of clients connected since the broker started.")]

/-- State of one exported metric: the registered metric name, the help
string (the original topic), and the current numeric value.  The same
shape models both the MosquittoCounter wrapper and a prometheus gauge. -/
@[ext]
structure Metric where
  name : String
  help : String
  value : ℚ
  deriving DecidableEq, Repr

/-- Modelled from the spec: the Set operation of the MosquittoCounter type
(its defining source file is not part of this tree) and of a prometheus
gauge replaces the stored value; updates overwrite rather than
accumulate, and resetAll writes zero through the same operation. -/
def setMetricValue (m : Metric) (v : ℚ) : Metric :=
  { m with value := v }

/-- prometheus metric names must match [a-zA-Z_:][a-zA-Z0-9_:]* . -/
def validMetricName (s : String) : Bool :=
  match s.toList with
  | [] => false
  | c :: cs =>
    (c.isAlpha || c == '_' || c == ':') &&
      cs.all (fun d => d.isAlphanum || d == '_' || d == ':')

/-- Model of prometheus.MustRegister on the default registry, tracking
only the set of registered metric names: registering an invalid name or a
name that is already taken aborts the process (modelled as none). -/
def mustRegister (name : String) (registered : List String) : Option (List String) :=
  if validMetricName name = true ∧ name ∉ registered then some (name :: registered) else none

/-- The mutable state of main.go: the counterMetrics map, the
gaugeMetrics map, and the names registered with the prometheus default
registry. -/
structure ExporterState where
  counterMetrics : String → Option Metric
  gaugeMetrics : String → Option Metric
  registeredNames : List String

/-- The state at program start: both maps empty, nothing registered. -/
def initState : ExporterState :=
  { counterMetrics := fun _ => none, gaugeMetrics := fun _ => none, registeredNames := [] }

/-- Point update of a topic-keyed map. -/
def updateFun (f : String → Option Metric) (t : String) (m : Metric) : String → Option Metric :=
  fun u => if u = t then some m else f u

/-- processCounterMetric from main.go: set the value when the counter for
the topic exists; otherwise create it with the derived name and the topic
as help text, register it, and set the first value.  A registration
conflict aborts the process (none). -/
def processCounterMetric (topic payload : String) (s : ExporterState) : Option ExporterState :=
  match s.counterMetrics topic with
  | some m =>
    some { s with counterMetrics := updateFun s.counterMetrics topic (setMetricValue m (parseValue payload)) }
  | none =>
    match mustRegister (parseTopic topic) s.registeredNames with
    | some regs =>
      some { counterMetrics :=
               updateFun s.counterMetrics topic
                 { name := parseTopic topic, help := topic, value := parseValue payload },
             gaugeMetrics := s.gaugeMetrics,
             registeredNames := regs }
    | none => none

/-- processGaugeMetric from main.go, the gauge twin of
processCounterMetric. -/
def processGaugeMetric (topic payload : String) (s : ExporterState) : Option ExporterState :=
  match s.gaugeMetrics topic with
  | some m =>
    some { s with gaugeMetrics := updateFun s.gaugeMetrics topic (setMetricValue m (parseValue payload)) }
  | none =>
    match mustRegister (parseTopic topic) s.registeredNames with
    | some regs =>
      some { counterMetrics := s.counterMetrics,
             gaugeMetrics :=
               updateFun s.gaugeMetrics topic
                 { name := parseTopic topic, help := topic, value := parseValue payload },
             registeredNames := regs }
    | none => none

/-- processUpdate from main.go, the onMessage entry point: ignored topics
are dropped, counter topics go to the counter path, everything else to
the gauge path. -/
def processUpdate (topic payload : String) (s : ExporterState) : Option ExporterState :=
  if (List.lookup topic ignoreKeyMetrics).isSome then some s
  else if (List.lookup topic counterKeyMetrics).isSome then processCounterMetric topic payload s
  else processGaugeMetric topic payload s

/-- resetMetrics from main.go: set every known counter and gauge to 0. -/
def resetMetrics (s : ExporterState) : ExporterState :=
  { s with
    counterMetrics := fun u => (s.counterMetrics u).map (fun m => setMetricValue m 0),
    gaugeMetrics := fun u => (s.gaugeMetrics u).map (fun m => setMetricValue m 0) }

/-- The three-way disposition of the spec classifier. -/
inductive Disposition
  | ignored
  | counter
  | gauge
  deriving DecidableEq, Repr

/-- The spec classifier: ignored table first, then counter table, else
gauge. -/
def classify (topic : String) : Disposition :=
  if (List.lookup topic ignoreKeyMetrics).isSome then Disposition.ignored
  else if (List.lookup topic counterKeyMetrics).isSome then Disposition.counter
  else Disposition.gauge

/-- States reachable from program start by message updates and resets. -/
inductive Reach : ExporterState → Prop
  | init : Reach initState
  | update {s s' : ExporterState} {t p : String} :
      Reach s → processUpdate t p s = some s' → Reach s'
  | reset {s : ExporterState} : Reach s → Reach (resetMetrics s)

/-- Registry invariant: an entry in the counter map belongs to a counter
topic, an entry in the gauge map to a non-counter topic, neither topic is
ignored, and every entry carries the derived name of its topic and the
topic itself as help text. -/
def Inv (s : ExporterState) : Prop :=
  ∀ t : String,
    (∀ m : Metric, s.counterMetrics t = some m →
      (List.lookup t counterKeyMetrics).isSome = true ∧
      (List.lookup t ignoreKeyMetrics).isSome = false ∧
      m.name = parseTopic t ∧ m.help = t) ∧
    (∀ m : Metric, s.gaugeMetrics t = some m →
      (List.lookup t counterKeyMetrics).isSome = false ∧
      (List.lookup t ignoreKeyMetrics).isSome = false ∧
      m.name = parseTopic t ∧ m.help = t)

/-! ### Helper lemmas on the value parser -/

theorem takeDigits_fst_digits (l : List Char) : ∀ c ∈ (takeDigits l).1, c.isDigit = true := by
  induction l with
  | nil => intro c hc; simp [takeDigits] at hc
  | cons a as ih =>
    intro c hc
    by_cases h : a.isDigit
    · simp only [takeDigits, h, if_true] at hc
      rcases List.mem_cons.mp hc with rfl | hc
      · exact h
      · exact ih c hc
    · simp only [takeDigits, h, Bool.false_eq_true, if_false] at hc
      simp at hc

theorem takeDigits_head_not_digit (l : List Char)
    (h : ∀ c, l.head? = some c → c.isDigit = false) : takeDigits l = ([], l) := by
  cases l with
  | nil => rfl
  | cons a as => simp [takeDigits, h a rfl]

theorem takeDigits_append {d v : List Char} (hd : ∀ c ∈ d, c.isDigit = true)
    (hv : ∀ c, v.head? = some c → c.isDigit = false) : takeDigits (d ++ v) = (d, v) := by
  induction d with
  | nil => simpa using takeDigits_head_not_digit v hv
  | cons a as ih =>
    have ha : a.isDigit = true := hd a (List.mem_cons_self a as)
    have ih2 := ih (fun c hc => hd c (List.mem_cons_of_mem a hc))
    simp [takeDigits, ha, ih2]

theorem head?_not_digit_of_forall {l : List Char} (h : ∀ c ∈ l, c.isDigit = false) :
    ∀ c, l.head? = some c → c.isDigit = false := by
  intro c hc
  cases l with
  | nil => simp at hc
  | cons a as =>
    simp at hc
    subst hc
    exact h a (List.mem_cons_self a as)

theorem tryInt_none {l : List Char} (h : ∀ c, l.head? = some c → c.isDigit = false) :
    tryInt l = none := by
  simp [tryInt, takeDigits_head_not_digit l h]

theorem tryDecCore_none {l : List Char} (h : ∀ c, l.head? = some c → c.isDigit = false) :
    tryDecCore l = none := by
  simp [tryDecCore, takeDigits_head_not_digit l h]

theorem tryInt_token {d v : List Char} (hne : d ≠ []) (hd : ∀ c ∈ d, c.isDigit = true)
    (hv : ∀ c, v.head? = some c → c.isDigit = false) : tryInt (d ++ v) = some d := by
  simp [tryInt, takeDigits_append hd hv, hne]

theorem tryDecCore_int_none {d v : List Char} (hd : ∀ c ∈ d, c.isDigit = true)
    (hv : ∀ c, v.head? = some c → c.isDigit = false ∧ c ≠ '.') :
    tryDecCore (d ++ v) = none := by
  have hv1 : ∀ c, v.head? = some c → c.isDigit = false := fun c hc => (hv c hc).1
  have hdot : (takeDigits (d ++ v)).2.head? ≠ some '.' := by
    rw [takeDigits_append hd hv1]
    cases v with
    | nil => simp
    | cons a as =>
      simp only [List.head?_cons, ne_eq, Option.some.injEq]
      exact (hv a rfl).2
  simp only [tryDecCore, hdot, if_false]
  split <;> rfl

theorem tryDecCore_dec {d1 d2 v : List Char} (h1 : d1 ≠ []) (h1d : ∀ c ∈ d1, c.isDigit = true)
    (h2 : d2 ≠ []) (h2d : ∀ c ∈ d2, c.isDigit = true)
    (hv : ∀ c, v.head? = some c → c.isDigit = false) :
    tryDecCore (d1 ++ '.' :: (d2 ++ v)) = some (d1 ++ '.' :: d2) := by
  have hmid : ∀ c, ('.' :: (d2 ++ v)).head? = some c → c.isDigit = false := by
    intro c hc
    simp at hc
    subst hc
    decide
  have e1 : takeDigits (d1 ++ '.' :: (d2 ++ v)) = (d1, '.' :: (d2 ++ v)) :=
    takeDigits_append h1d hmid
  have e2 : takeDigits (d2 ++ v) = (d2, v) := takeDigits_append h2d hv
  simp [tryDecCore, e1, e2, h1, h2]

theorem tryDec_cons_not_minus {a : Char} {l : List Char} (h : a ≠ '-') :
    tryDec (a :: l) = tryDecCore (a :: l) := by
  simp [tryDec, h]

theorem tryDec_cons_minus (l : List Char) :
    tryDec ('-' :: l) = (tryDecCore l).map (fun t => '-' :: t) := by
  simp [tryDec]

theorem firstMatch_cons (c : Char) (cs : List Char) :
    firstMatch (c :: cs) =
      match tryDec (c :: cs) with
      | some t => some t
      | none =>
        match tryInt (c :: cs) with
        | some t => some t
        | none => firstMatch cs := rfl

theorem not_digit_minus : ('-' : Char).isDigit = false := by decide

theorem firstMatch_skip {u rest : List Char} (hu : ∀ c ∈ u, c.isDigit = false)
    (hlast : u.getLast? = some '-' → tryDecCore rest = none) :
    firstMatch (u ++ rest) = firstMatch rest := by
  induction u with
  | nil => rfl
  | cons a as ih =>
    have had : a.isDigit = false := hu a (List.mem_cons_self a as)
    cases as with
    | nil =>
      simp only [List.cons_append, List.nil_append]
      rw [firstMatch_cons]
      have h2 : tryInt (a :: rest) = none := by
        apply tryInt_none
        intro c hc
        simp at hc
        subst hc
        exact had
      by_cases ham : a = '-'
      · subst ham
        have hts : tryDecCore rest = none := hlast (by decide)
        rw [tryDec_cons_minus, hts, h2]
        rfl
      · have h1 : tryDecCore (a :: rest) = none := by
          apply tryDecCore_none
          intro c hc
          simp at hc
          subst hc
          exact had
        rw [tryDec_cons_not_minus ham, h1, h2]
    | cons b as' =>
      have hb : b.isDigit = false := hu b (List.mem_cons_of_mem a (List.mem_cons_self b as'))
      simp only [List.cons_append]
      rw [firstMatch_cons]
      have h2 : tryInt (a :: b :: (as' ++ rest)) = none := by
        apply tryInt_none
        intro c hc
        simp at hc
        subst hc
        exact had
      have h1 : tryDec (a :: b :: (as' ++ rest)) = none := by
        by_cases ham : a = '-'
        · subst ham
          rw [tryDec_cons_minus]
          have hcb : tryDecCore (b :: (as' ++ rest)) = none := by
            apply tryDecCore_none
            intro c hc
            simp at hc
            subst hc
            exact hb
          rw [hcb]
          rfl
        · rw [tryDec_cons_not_minus ham]
          apply tryDecCore_none
          intro c hc
          simp at hc
          subst hc
          exact had
      rw [h1, h2]
      apply ih
      · intro c hc
        exact hu c (List.mem_cons_of_mem a hc)
      · intro h
        apply hlast
        rwa [List.getLast?_cons_cons]

theorem firstMatch_no_digit {l : List Char} (h : ∀ c ∈ l, c.isDigit = false) :
    firstMatch l = none := by
  induction l with
  | nil => rfl
  | cons a as ih =>
    have htail : ∀ c, as.head? = some c → c.isDigit = false :=
      head?_not_digit_of_forall (fun c hc => h c (List.mem_cons_of_mem a hc))
    have hhead : ∀ c, (a :: as).head? = some c → c.isDigit = false :=
      head?_not_digit_of_forall h
    have h1 : tryDec (a :: as) = none := by
      by_cases ham : a = '-'
      · subst ham
        rw [tryDec_cons_minus, tryDecCore_none htail]
        rfl
      · rw [tryDec_cons_not_minus ham]
        exact tryDecCore_none hhead
    have h2 : tryInt (a :: as) = none := tryInt_none hhead
    rw [firstMatch_cons, h1, h2]
    exact ih (fun c hc => h c (List.mem_cons_of_mem a hc))

theorem tryDecCore_dot {l t : List Char} (h : tryDecCore l = some t) : '.' ∈ t := by
  unfold tryDecCore at h
  split_ifs at h
  rw [Option.some.injEq] at h
  subst h
  exact List.mem_append.mpr (Or.inr (List.mem_cons_self '.' _))

theorem tryDec_dot {l t : List Char} (h : tryDec l = some t) : '.' ∈ t := by
  cases l with
  | nil => simp [tryDec] at h
  | cons a as =>
    by_cases ha : a = '-'
    · subst ha
      rw [tryDec_cons_minus] at h
      obtain ⟨t', ht', rfl⟩ := Option.map_eq_some'.mp h
      exact List.mem_cons_of_mem _ (tryDecCore_dot ht')
    · rw [tryDec_cons_not_minus ha] at h
      exact tryDecCore_dot h

theorem tryInt_digits {l t : List Char} (h : tryInt l = some t) :
    t ≠ [] ∧ ∀ c ∈ t, c.isDigit = true := by
  unfold tryInt at h
  split_ifs at h with hne
  rw [Option.some.injEq] at h
  subst h
  exact ⟨hne, takeDigits_fst_digits l⟩

theorem firstMatch_shape {l t : List Char} (h : firstMatch l = some t) :
    '.' ∈ t ∨ ∀ c ∈ t, c.isDigit = true := by
  induction l with
  | nil => simp [firstMatch] at h
  | cons a as ih =>
    rw [firstMatch_cons] at h
    cases hd : tryDec (a :: as) with
    | some t' =>
      rw [hd] at h
      rw [Option.some.injEq] at h
      subst h
      exact Or.inl (tryDec_dot hd)
    | none =>
      rw [hd] at h
      cases hi : tryInt (a :: as) with
      | some t' =>
        rw [hi] at h
        rw [Option.some.injEq] at h
        subst h
        exact Or.inr (tryInt_digits hi).2
      | none =>
        rw [hi] at h
        exact ih h

theorem magToQ_nonneg (t : List Char) : 0 ≤ magToQ t := by
  unfold magToQ
  split_ifs
  · exact Rat.divInt_nonneg (Int.natCast_nonneg _) (Int.natCast_nonneg _)
  · exact Nat.cast_nonneg _

theorem tokenToQ_nonneg_of_digits {t : List Char} (hd : ∀ c ∈ t, c.isDigit = true) :
    0 ≤ tokenToQ t := by
  unfold tokenToQ
  split_ifs with hm
  · exfalso
    cases t with
    | nil => simp at hm
    | cons a as =>
      simp at hm
      subst hm
      have := hd '-' (List.mem_cons_self '-' as)
      simp at this
  · exact magToQ_nonneg t

theorem parseValue_none {payload : String} (h : firstMatch payload.toList = none) :
    parseValue payload = 0 := by
  unfold parseValue
  rw [h]

theorem parseValue_of_match {payload : String} {t : List Char}
    (h : firstMatch payload.toList = some t)
    (hlo : -maxFloat64 ≤ tokenToQ t) (hhi : tokenToQ t ≤ maxFloat64) :
    parseValue payload = tokenToQ t := by
  unfold parseValue
  rw [h]
  simp only [parseFloat64, if_pos (And.intro hlo hhi)]

theorem parseValue_overflow {payload : String} {t : List Char}
    (h : firstMatch payload.toList = some t)
    (hov : ¬(-maxFloat64 ≤ tokenToQ t ∧ tokenToQ t ≤ maxFloat64)) :
    parseValue payload = 0 := by
  unfold parseValue
  rw [h]
  simp only [parseFloat64, if_neg hov]

theorem parseValue_nonneg_cases {payload : String} {t : List Char}
    (h : firstMatch payload.toList = some t) (hd : ∀ c ∈ t, c.isDigit = true) :
    0 ≤ parseValue payload := by
  by_cases hr : -maxFloat64 ≤ tokenToQ t ∧ tokenToQ t ≤ maxFloat64
  · rw [parseValue_of_match h hr.1 hr.2]
    exact tokenToQ_nonneg_of_digits hd
  · rw [parseValue_overflow h hr]

theorem char_ne_minus_of_digit {c : Char} (h : c.isDigit = true) : c ≠ '-' := by
  intro he
  subst he
  exact absurd h (by decide)

theorem firstMatch_int_token {d v : List Char} (hne : d ≠ []) (hd : ∀ c ∈ d, c.isDigit = true)
    (hv : ∀ c, v.head? = some c → c.isDigit = false ∧ c ≠ '.') :
    firstMatch (d ++ v) = some d := by
  obtain ⟨a, d', rfl⟩ := List.exists_cons_of_ne_nil hne
  have ha : a.isDigit = true := hd a (List.mem_cons_self a d')
  have ham : a ≠ '-' := char_ne_minus_of_digit ha
  rw [List.cons_append, firstMatch_cons]
  have h1 : tryDec (a :: (d' ++ v)) = none := by
    rw [tryDec_cons_not_minus ham]
    have h := tryDecCore_int_none hd hv
    rwa [List.cons_append] at h
  have h2 : tryInt (a :: (d' ++ v)) = some (a :: d') := by
    have h := tryInt_token hne hd (fun c hc => (hv c hc).1)
    rwa [List.cons_append] at h
  rw [h1, h2]

theorem firstMatch_dec_token {sgn d1 d2 v : List Char} (hs : sgn = [] ∨ sgn = ['-'])
    (h1 : d1 ≠ []) (h1d : ∀ c ∈ d1, c.isDigit = true)
    (h2 : d2 ≠ []) (h2d : ∀ c ∈ d2, c.isDigit = true)
    (hv : ∀ c, v.head? = some c → c.isDigit = false) :
    firstMatch ((sgn ++ d1 ++ '.' :: d2) ++ v) = some (sgn ++ d1 ++ '.' :: d2) := by
  rcases hs with rfl | rfl
  · simp only [List.nil_append, List.cons_append, List.append_assoc]
    obtain ⟨a, d1', rfl⟩ := List.exists_cons_of_ne_nil h1
    have ha : a.isDigit = true := h1d a (List.mem_cons_self a d1')
    have ham : a ≠ '-' := char_ne_minus_of_digit ha
    simp only [List.cons_append, List.append_assoc]
    rw [firstMatch_cons, tryDec_cons_not_minus ham]
    have hcore : tryDecCore (a :: (d1' ++ ('.' :: (d2 ++ v)))) = some (a :: (d1' ++ '.' :: d2)) := by
      have h := tryDecCore_dec h1 h1d h2 h2d hv
      simpa using h
    rw [hcore]
  · simp only [List.nil_append, List.cons_append, List.append_assoc]
    rw [firstMatch_cons, tryDec_cons_minus]
    have hcore : tryDecCore (d1 ++ ('.' :: (d2 ++ v))) = some (d1 ++ '.' :: d2) := by
      have h := tryDecCore_dec h1 h1d h2 h2d hv
      simpa using h
    rw [hcore]
    rfl

/-! ### Claims C1, C7, C9 on the value parser -/

/-- C1, as stated, is false on the code: the first numeric token of the
payload "-3" in the sense of the claim (integer or decimal, optionally
preceded by a minus sign) is "-3", denoting -3, but parseValue returns
3 — the regex does not attach a minus sign to a plain integer. -/
theorem c1_counterexample :
    (specFirstToken (String.toList "-3") = some ['-', '3'] ∧
      tokenToQ ['-', '3'] = -3 ∧
      parseValue "-3" = 3 ∧
      parseValue "-3" ≠ tokenToQ ['-', '3']) ∧
    (specFirstToken (String.mk (List.replicate 309 '9')).toList =
        some (List.replicate 309 '9') ∧
      parseValue (String.mk (List.replicate 309 '9')) = 0 ∧
      tokenToQ (List.replicate 309 '9') ≠ 0) :=
  ⟨⟨by decide, by decide, by decide, by decide⟩, by decide, by decide, by decide⟩

/-- C1 amended: for every payload of the form u ++ w ++ v where u contains
no digit, w is a numeric token in which a minus sign is attached only to a
decimal (digits-dot-digits) form, v does not start with a digit or a dot,
and the value of w is within the finite float64 range, parseValue returns
exactly the value of w, ignoring the surrounding content.  The only
exclusion on u is the adjacency case that would change the token itself:
when w is an unsigned decimal, u must not end in a minus sign (the regex
would then attach that minus, covered by the signed-decimal case). -/
theorem c1_amended (u w v : List Char)
    (hu : ∀ c ∈ u, c.isDigit = false)
    (hw : (w ≠ [] ∧ ∀ c ∈ w, c.isDigit = true) ∨
      (∃ d1 d2, d1 ≠ [] ∧ d2 ≠ [] ∧
        (∀ c ∈ d1, c.isDigit = true) ∧ (∀ c ∈ d2, c.isDigit = true) ∧
        w = '-' :: (d1 ++ '.' :: d2)) ∨
      (∃ d1 d2, d1 ≠ [] ∧ d2 ≠ [] ∧
        (∀ c ∈ d1, c.isDigit = true) ∧ (∀ c ∈ d2, c.isDigit = true) ∧
        w = d1 ++ '.' :: d2 ∧ u.getLast? ≠ some '-'))
    (hv : ∀ c, v.head? = some c → c.isDigit = false ∧ c ≠ '.')
    (hrange : -maxFloat64 ≤ tokenToQ w ∧ tokenToQ w ≤ maxFloat64) :
    parseValue (String.mk (u ++ (w ++ v))) = tokenToQ w := by
  have hfm : firstMatch (u ++ (w ++ v)) = some w := by
    rcases hw with ⟨hne, hd⟩ | ⟨d1, d2, h1, h2, h1d, h2d, rfl⟩ |
      ⟨d1, d2, h1, h2, h1d, h2d, rfl, hul⟩
    · rw [firstMatch_skip hu (fun _ => tryDecCore_int_none hd hv)]
      exact firstMatch_int_token hne hd hv
    · have hskip : tryDecCore (('-' :: (d1 ++ '.' :: d2)) ++ v) = none := by
        apply tryDecCore_none
        intro c hc
        simp at hc
        subst hc
        decide
      rw [firstMatch_skip hu (fun _ => hskip)]
      exact firstMatch_dec_token (Or.inr rfl) h1 h1d h2 h2d (fun c hc => (hv c hc).1)
    · rw [firstMatch_skip hu (fun h => absurd h hul)]
      exact firstMatch_dec_token (Or.inl rfl) h1 h1d h2 h2d (fun c hc => (hv c hc).1)
  exact parseValue_of_match hfm hrange.1 hrange.2

/-- Witness for the amended C1 at the payloads "temp: -3.5 C" (signed
decimal token after non-numeric content) and "-3" (a minus sign in the
ignored content directly before a plain integer token). -/
theorem c1_witness :
    (parseValue (String.mk (String.toList "temp: " ++ (String.toList "-3.5" ++ String.toList " C"))) =
      tokenToQ (String.toList "-3.5") ∧
    parseValue (String.mk (String.toList "-" ++ (String.toList "3" ++ String.toList ""))) =
      tokenToQ (String.toList "3")) := by
  constructor
  · apply c1_amended
    · decide
    · exact Or.inr (Or.inl ⟨['3'], ['5'], by decide, by decide, by decide, by decide, by decide⟩)
    · decide
    · exact ⟨by decide, by decide⟩
  · apply c1_amended
    · decide
    · exact Or.inl ⟨by decide, by decide⟩
    · decide
    · exact ⟨by decide, by decide⟩

/-- C7: a payload without any digit character yields 0, and a payload
whose matched token denotes a value outside the finite float64 range
yields 0; neither case is an error. -/
theorem c7_parse_failure_defaults_zero :
    (∀ payload : String, (∀ c ∈ payload.toList, c.isDigit = false) → parseValue payload = 0) ∧
    (∀ (payload : String) (t : List Char), firstMatch payload.toList = some t →
      ¬(-maxFloat64 ≤ tokenToQ t ∧ tokenToQ t ≤ maxFloat64) → parseValue payload = 0) := by
  constructor
  · intro p h
    exact parseValue_none (firstMatch_no_digit h)
  · intro p t h hov
    exact parseValue_overflow h hov

/-- Witness for C7: the digit-free payload "connected" and a 400-digit
payload whose value overflows float64 both parse to 0. -/
theorem c7_witness :
    parseValue "connected" = 0 ∧ parseValue (String.mk (List.replicate 400 '9')) = 0 := by
  constructor
  · exact c7_parse_failure_defaults_zero.1 "connected" (by decide)
  · exact c7_parse_failure_defaults_zero.2 (String.mk (List.replicate 400 '9'))
      (List.replicate 400 '9') (by decide) (by decide)

/-- C9: a match without a decimal point comes from the plain-integer
alternative of the regex, so the parsed value is non-negative — the
minus sign attaches only to decimal matches; in particular
parseValue "-3" is 3 while parseValue "-3.5" is -3.5. -/
theorem c9_integer_match_nonneg :
    (∀ (payload : String) (t : List Char), firstMatch payload.toList = some t →
      ('.' ∈ t → False) → 0 ≤ parseValue payload) ∧
    parseValue "-3" = 3 ∧ parseValue "-3.5" = -3.5 := by
  refine ⟨?_, by decide, ?_⟩
  · intro p t h hdot
    rcases firstMatch_shape h with hc | hd
    · exact absurd hc hdot
    · exact parseValue_nonneg_cases h hd
  · rw [show parseValue "-3.5" = Rat.divInt (-35) 10 from by decide]
    norm_num [Rat.divInt_eq_div]

/-- Witness for C9 at the payload "-3". -/
theorem c9_witness : 0 ≤ parseValue "-3" :=
  c9_integer_match_nonneg.1 "-3" ['3'] (by decide) (by decide)

/-! ### Helper lemmas on the topic-name derivation -/

theorem dropPat_eq_some {pat l r : List Char} (h : dropPat pat l = some r) : l = pat ++ r := by
  induction pat generalizing l with
  | nil =>
    simp only [dropPat, Option.some.injEq] at h
    simp [h]
  | cons p ps ih =>
    cases l with
    | nil => simp [dropPat] at h
    | cons c cs =>
      by_cases hc : c = p
      · subst hc
        simp only [dropPat, if_pos rfl] at h
        simp [ih h]
      · simp [dropPat, hc] at h

theorem replaceOnce_no_occ {pat l : List Char} (h : ∀ i, ¬ occursAt pat l i) :
    replaceOnce pat l = l := by
  induction l with
  | nil => rfl
  | cons c cs ih =>
    have h0 := h 0
    unfold occursAt at h0
    rw [List.drop_zero] at h0
    have hnone : dropPat pat (c :: cs) = none := by
      cases hd : dropPat pat (c :: cs) with
      | none => rfl
      | some r => exact absurd (by rw [hd]; rfl) h0
    simp only [replaceOnce, hnone]
    have htail : ∀ i, ¬ occursAt pat cs i := by
      intro i hi
      apply h (i + 1)
      unfold occursAt at hi ⊢
      rwa [List.drop_succ_cons]
    rw [ih htail]

theorem replaceOnce_first_occ {pat l : List Char} {i : Nat} (hocc : occursAt pat l i)
    (hmin : ∀ j, j < i → ¬ occursAt pat l j) :
    replaceOnce pat l = l.take i ++ List.drop pat.length (l.drop i) := by
  induction l generalizing i with
  | nil =>
    unfold occursAt at hocc
    rw [List.drop_nil] at hocc
    cases pat with
    | nil => simp [replaceOnce]
    | cons p ps => simp [dropPat] at hocc
  | cons c cs ih =>
    cases i with
    | zero =>
      unfold occursAt at hocc
      rw [List.drop_zero] at hocc
      obtain ⟨r, hr⟩ := Option.isSome_iff_exists.mp hocc
      have hl := dropPat_eq_some hr
      simp only [replaceOnce, hr, List.take_zero, List.drop_zero, List.nil_append]
      rw [hl, List.drop_left]
    | succ i' =>
      have h0 := hmin 0 (Nat.succ_pos i')
      unfold occursAt at h0
      rw [List.drop_zero] at h0
      have hnone : dropPat pat (c :: cs) = none := by
        cases hd : dropPat pat (c :: cs) with
        | none => rfl
        | some r => exact absurd (by rw [hd]; rfl) h0
      simp only [replaceOnce, hnone, List.take_succ_cons, List.drop_succ_cons, List.cons_append,
        List.cons.injEq, true_and]
      apply ih
      · unfold occursAt at hocc ⊢
        rwa [List.drop_succ_cons] at hocc
      · intro j hj hoc
        apply hmin (j + 1) (Nat.succ_lt_succ hj)
        unfold occursAt
        rwa [List.drop_succ_cons]

/-! ### Claim C2 on the topic-name derivation -/

/-- C2, as stated, is false on the code: the code removes the first
occurrence of "$SYS/" anywhere in the topic, not only a leading one.  On
the topic "x$SYS/y" the claimed prefix-only rule yields "x$SYS_y" while
parseTopic yields "xy". -/
theorem c2_counterexample :
    parseTopic "x$SYS/y" = "xy" ∧
    deriveNameSpec "x$SYS/y" = "x$SYS_y" ∧
    parseTopic "x$SYS/y" ≠ deriveNameSpec "x$SYS/y" :=
  ⟨by decide, by decide, by decide⟩

/-- C2 amended: the derived metric name is obtained by deleting the first
occurrence of "$SYS/" anywhere in the topic (if any; in particular a
leading one) and then replacing every '/', ' ', '-' and '.' by '_'; and
deriveName of "$SYS/broker/bytes/received" is "broker_bytes_received". -/
theorem c2_amended :
    (∀ (topic : String) (i : Nat), occursAt ("$SYS/".toList) topic.toList i →
      (∀ j, j < i → ¬ occursAt ("$SYS/".toList) topic.toList j) →
      parseTopic topic = String.mk (replaceSpecials
        (topic.toList.take i ++ List.drop ("$SYS/".toList).length (topic.toList.drop i)))) ∧
    (∀ topic : String, (∀ i, ¬ occursAt ("$SYS/".toList) topic.toList i) →
      parseTopic topic = String.mk (replaceSpecials topic.toList)) ∧
    parseTopic "$SYS/broker/bytes/received" = "broker_bytes_received" := by
  refine ⟨?_, ?_, by decide⟩
  · intro topic i hocc hmin
    unfold parseTopic
    rw [replaceOnce_first_occ hocc hmin]
  · intro topic h
    unfold parseTopic
    rw [replaceOnce_no_occ h]

/-- Witness for the amended C2: the topic "$SYS/broker/version" carries
the pattern at position 0. -/
theorem c2_witness :
    parseTopic "$SYS/broker/version" = String.mk (replaceSpecials
      ((String.toList "$SYS/broker/version").take 0 ++
        List.drop ("$SYS/".toList).length ((String.toList "$SYS/broker/version").drop 0))) :=
  c2_amended.1 "$SYS/broker/version" 0 (by decide) (fun j hj => absurd hj (Nat.not_lt_zero j))

/-! ### Helper lemmas on the registry -/

theorem lookup_cons {t k v : String} {rest : List (String × String)} :
    List.lookup t ((k, v) :: rest) = if (t == k) = true then some v else List.lookup t rest := by
  cases htk : t == k <;> simp [List.lookup, htk]

theorem lookup_isSome_mem {l : List (String × String)} {t : String}
    (h : (List.lookup t l).isSome = true) : t ∈ l.map Prod.fst := by
  induction l with
  | nil => simp [List.lookup] at h
  | cons kv rest ih =>
    obtain ⟨k, v⟩ := kv
    rw [lookup_cons] at h
    by_cases htk : (t == k) = true
    · have ht : t = k := by simpa using htk
      subst ht
      simp
    · rw [if_neg htk] at h
      simp [ih h]

theorem inv_initState : Inv initState := by
  intro t
  constructor <;> intro m hm <;> simp [initState] at hm

theorem inv_processCounterMetric {s s' : ExporterState} {t p : String} (hInv : Inv s)
    (hc : (List.lookup t counterKeyMetrics).isSome = true)
    (hi : (List.lookup t ignoreKeyMetrics).isSome = false)
    (h : processCounterMetric t p s = some s') : Inv s' := by
  unfold processCounterMetric at h
  cases hm : s.counterMetrics t with
  | some m =>
    rw [hm, Option.some.injEq] at h
    subst h
    intro u
    refine ⟨?_, ?_⟩
    · intro m' hm'
      by_cases hu : u = t
      · subst hu
        simp [updateFun] at hm'
        obtain ⟨-, -, hn, hh⟩ := (hInv u).1 m hm
        subst hm'
        exact ⟨hc, hi, hn, hh⟩
      · simp only [updateFun, if_neg hu] at hm'
        exact (hInv u).1 m' hm'
    · intro m' hm'
      exact (hInv u).2 m' hm'
  | none =>
    rw [hm] at h
    cases hr : mustRegister (parseTopic t) s.registeredNames with
    | none =>
      rw [hr] at h
      exact absurd h (by simp)
    | some regs =>
      rw [hr, Option.some.injEq] at h
      subst h
      intro u
      refine ⟨?_, ?_⟩
      · intro m' hm'
        by_cases hu : u = t
        · subst hu
          simp [updateFun] at hm'
          subst hm'
          exact ⟨hc, hi, rfl, rfl⟩
        · simp only [updateFun, if_neg hu] at hm'
          exact (hInv u).1 m' hm'
      · intro m' hm'
        exact (hInv u).2 m' hm'

theorem inv_processGaugeMetric {s s' : ExporterState} {t p : String} (hInv : Inv s)
    (hc : (List.lookup t counterKeyMetrics).isSome = false)
    (hi : (List.lookup t ignoreKeyMetrics).isSome = false)
    (h : processGaugeMetric t p s = some s') : Inv s' := by
  unfold processGaugeMetric at h
  cases hm : s.gaugeMetrics t with
  | some m =>
    rw [hm, Option.some.injEq] at h
    subst h
    intro u
    refine ⟨?_, ?_⟩
    · intro m' hm'
      exact (hInv u).1 m' hm'
    · intro m' hm'
      by_cases hu : u = t
      · subst hu
        simp [updateFun] at hm'
        obtain ⟨-, -, hn, hh⟩ := (hInv u).2 m hm
        subst hm'
        exact ⟨hc, hi, hn, hh⟩
      · simp only [updateFun, if_neg hu] at hm'
        exact (hInv u).2 m' hm'
  | none =>
    rw [hm] at h
    cases hr : mustRegister (parseTopic t) s.registeredNames with
    | none =>
      rw [hr] at h
      exact absurd h (by simp)
    | some regs =>
      rw [hr, Option.some.injEq] at h
      subst h
      intro u
      refine ⟨?_, ?_⟩
      · intro m' hm'
        exact (hInv u).1 m' hm'
      · intro m' hm'
        by_cases hu : u = t
        · subst hu
          simp [updateFun] at hm'
          subst hm'
          exact ⟨hc, hi, rfl, rfl⟩
        · simp only [updateFun, if_neg hu] at hm'
          exact (hInv u).2 m' hm'

theorem inv_processUpdate {s s' : ExporterState} {t p : String} (hInv : Inv s)
    (h : processUpdate t p s = some s') : Inv s' := by
  unfold processUpdate at h
  by_cases hig : (List.lookup t ignoreKeyMetrics).isSome = true
  · rw [if_pos hig, Option.some.injEq] at h
    subst h
    exact hInv
  · rw [Bool.not_eq_true] at hig
    rw [if_neg (by simp [hig])] at h
    by_cases hc : (List.lookup t counterKeyMetrics).isSome = true
    · rw [if_pos hc] at h
      exact inv_processCounterMetric hInv hc hig h
    · rw [Bool.not_eq_true] at hc
      rw [if_neg (by simp [hc])] at h
      exact inv_processGaugeMetric hInv hc hig h

theorem inv_resetMetrics {s : ExporterState} (hInv : Inv s) : Inv (resetMetrics s) := by
  intro u
  refine ⟨?_, ?_⟩
  · intro m' hm'
    simp only [resetMetrics, Option.map_eq_some'] at hm'
    obtain ⟨m, hm, rfl⟩ := hm'
    obtain ⟨h1, h2, h3, h4⟩ := (hInv u).1 m hm
    exact ⟨h1, h2, h3, h4⟩
  · intro m' hm'
    simp only [resetMetrics, Option.map_eq_some'] at hm'
    obtain ⟨m, hm, rfl⟩ := hm'
    obtain ⟨h1, h2, h3, h4⟩ := (hInv u).2 m hm
    exact ⟨h1, h2, h3, h4⟩

theorem reach_inv {s : ExporterState} (h : Reach s) : Inv s := by
  induction h with
  | init => exact inv_initState
  | update _ hstep ih => exact inv_processUpdate ih hstep
  | reset _ ih => exact inv_resetMetrics ih

theorem updateFun_same (f : String → Option Metric) (t : String) (m : Metric) :
    updateFun f t m t = some m := by
  simp [updateFun]

/-! ### Claims C3, C4, C5, C6, C8 on the registry -/

/-- C4: a topic in the ignored table is dropped — onMessage leaves the
whole state (both maps and the registered names) exactly as it was. -/
theorem c4_ignored_no_effect (s : ExporterState) (topic payload : String)
    (h : (List.lookup topic ignoreKeyMetrics).isSome = true) :
    processUpdate topic payload s = some s := by
  unfold processUpdate
  rw [if_pos h]

/-- Witness for C4 at the ignored topic "$SYS/broker/version". -/
theorem c4_witness :
    processUpdate "$SYS/broker/version" "3.1.1" initState = some initState :=
  c4_ignored_no_effect initState "$SYS/broker/version" "3.1.1" (by decide)

/-- C5: after resetMetrics every previously created metric (counter or
gauge) keeps its name and help string but has value 0; absent entries
stay absent, nothing is removed, and the registered names are
unchanged. -/
theorem c5_reset_zeroes_preserving (s : ExporterState) (t : String) :
    (resetMetrics s).counterMetrics t =
      (s.counterMetrics t).map (fun m => { name := m.name, help := m.help, value := 0 }) ∧
    (resetMetrics s).gaugeMetrics t =
      (s.gaugeMetrics t).map (fun m => { name := m.name, help := m.help, value := 0 }) ∧
    (resetMetrics s).registeredNames = s.registeredNames :=
  ⟨rfl, rfl, rfl⟩

/-- C3: a successful onMessage for a non-ignored topic leaves exactly one
metric for that topic — in the counter map when the topic is in the
counter table, in the gauge map otherwise, and none in the other map —
whose name is the derived name, whose help is the topic, and whose value
is parseValue of the payload. -/
theorem c3_update_creates_or_sets (s : ExporterState) (topic payload : String)
    (s' : ExporterState) (hreach : Reach s)
    (hni : (List.lookup topic ignoreKeyMetrics).isSome = false)
    (hstep : processUpdate topic payload s = some s') :
    ((List.lookup topic counterKeyMetrics).isSome = true →
      s'.counterMetrics topic =
        some { name := parseTopic topic, help := topic, value := parseValue payload } ∧
      s'.gaugeMetrics topic = none) ∧
    ((List.lookup topic counterKeyMetrics).isSome = false →
      s'.gaugeMetrics topic =
        some { name := parseTopic topic, help := topic, value := parseValue payload } ∧
      s'.counterMetrics topic = none) := by
  have hInv := reach_inv hreach
  unfold processUpdate at hstep
  rw [if_neg (by simp [hni])] at hstep
  by_cases hc : (List.lookup topic counterKeyMetrics).isSome = true
  · rw [if_pos hc] at hstep
    refine ⟨fun _ => ?_, fun hcf => by rw [hc] at hcf; exact absurd hcf (by simp)⟩
    have hgnone : s.gaugeMetrics topic = none := by
      cases hg : s.gaugeMetrics topic with
      | none => rfl
      | some mg =>
        have h2 := ((hInv topic).2 mg hg).1
        rw [hc] at h2
        exact absurd h2 (by simp)
    unfold processCounterMetric at hstep
    cases hm : s.counterMetrics topic with
    | some m =>
      rw [hm, Option.some.injEq] at hstep
      subst hstep
      obtain ⟨-, -, hn, hh⟩ := (hInv topic).1 m hm
      constructor
      · show updateFun s.counterMetrics topic _ topic = _
        rw [updateFun_same, Option.some.injEq]
        exact Metric.ext hn hh rfl
      · exact hgnone
    | none =>
      rw [hm] at hstep
      cases hr : mustRegister (parseTopic topic) s.registeredNames with
      | none =>
        rw [hr] at hstep
        exact absurd hstep (by simp)
      | some regs =>
        rw [hr, Option.some.injEq] at hstep
        subst hstep
        constructor
        · show updateFun s.counterMetrics topic _ topic = _
          rw [updateFun_same]
        · exact hgnone
  · rw [Bool.not_eq_true] at hc
    rw [if_neg (by simp [hc])] at hstep
    refine ⟨fun hct => by rw [hc] at hct; exact absurd hct (by simp), fun _ => ?_⟩
    have hcnone : s.counterMetrics topic = none := by
      cases hg : s.counterMetrics topic with
      | none => rfl
      | some mc =>
        have h2 := ((hInv topic).1 mc hg).1
        rw [hc] at h2
        exact absurd h2 (by simp)
    unfold processGaugeMetric at hstep
    cases hm : s.gaugeMetrics topic with
    | some m =>
      rw [hm, Option.some.injEq] at hstep
      subst hstep
      obtain ⟨-, -, hn, hh⟩ := (hInv topic).2 m hm
      constructor
      · show updateFun s.gaugeMetrics topic _ topic = _
        rw [updateFun_same, Option.some.injEq]
        exact Metric.ext hn hh rfl
      · exact hcnone
    | none =>
      rw [hm] at hstep
      cases hr : mustRegister (parseTopic topic) s.registeredNames with
      | none =>
        rw [hr] at hstep
        exact absurd hstep (by simp)
      | some regs =>
        rw [hr, Option.some.injEq] at hstep
        subst hstep
        constructor
        · show updateFun s.gaugeMetrics topic _ topic = _
          rw [updateFun_same]
        · exact hcnone

/-- Witness for C3: a first message on the counter topic
"$SYS/broker/bytes/received" creates the counter metric with the derived
name, the topic as help, and value 1234, and no gauge entry. -/
theorem c3_witness :
    (processUpdate "$SYS/broker/bytes/received" "1234 bytes" initState).map
      (fun s => (s.counterMetrics "$SYS/broker/bytes/received",
        s.gaugeMetrics "$SYS/broker/bytes/received")) =
      some (some (Metric.mk "broker_bytes_received" "$SYS/broker/bytes/received" 1234), none) := by
  cases hA : processUpdate "$SYS/broker/bytes/received" "1234 bytes" initState with
  | none =>
    have e1 : (processUpdate "$SYS/broker/bytes/received" "1234 bytes" initState).isSome = true := by
      decide
    rw [hA] at e1
    simp at e1
  | some s1 =>
    have h := (c3_update_creates_or_sets initState "$SYS/broker/bytes/received" "1234 bytes" s1
      Reach.init (by decide) hA).1 (by decide)
    rw [Option.map_some', h.1, h.2]
    rw [Option.some.injEq, Prod.mk.injEq]
    exact ⟨by rw [Option.some.injEq]; exact Metric.ext (by decide) rfl (by decide), rfl⟩

/-- C6: a second successful update on the same non-ignored topic leaves
the metric value at parseValue of the second payload — updates overwrite
rather than accumulate. -/
theorem c6_second_update_overwrites (s s1 s2 : ExporterState) (t p1 p2 : String)
    (hni : (List.lookup t ignoreKeyMetrics).isSome = false)
    (_h1 : processUpdate t p1 s = some s1)
    (h2 : processUpdate t p2 s1 = some s2) :
    ((List.lookup t counterKeyMetrics).isSome = true →
      (s2.counterMetrics t).map Metric.value = some (parseValue p2)) ∧
    ((List.lookup t counterKeyMetrics).isSome = false →
      (s2.gaugeMetrics t).map Metric.value = some (parseValue p2)) := by
  unfold processUpdate at h2
  rw [if_neg (by simp [hni])] at h2
  by_cases hc : (List.lookup t counterKeyMetrics).isSome = true
  · rw [if_pos hc] at h2
    refine ⟨fun _ => ?_, fun hcf => by rw [hc] at hcf; exact absurd hcf (by simp)⟩
    unfold processCounterMetric at h2
    cases hm : s1.counterMetrics t with
    | some m =>
      rw [hm, Option.some.injEq] at h2
      subst h2
      simp [updateFun, setMetricValue]
    | none =>
      rw [hm] at h2
      cases hr : mustRegister (parseTopic t) s1.registeredNames with
      | none =>
        rw [hr] at h2
        exact absurd h2 (by simp)
      | some regs =>
        rw [hr, Option.some.injEq] at h2
        subst h2
        simp [updateFun]
  · rw [Bool.not_eq_true] at hc
    rw [if_neg (by simp [hc])] at h2
    refine ⟨fun hct => by rw [hc] at hct; exact absurd hct (by simp), fun _ => ?_⟩
    unfold processGaugeMetric at h2
    cases hm : s1.gaugeMetrics t with
    | some m =>
      rw [hm, Option.some.injEq] at h2
      subst h2
      simp [updateFun, setMetricValue]
    | none =>
      rw [hm] at h2
      cases hr : mustRegister (parseTopic t) s1.registeredNames with
      | none =>
        rw [hr] at h2
        exact absurd h2 (by simp)
      | some regs =>
        rw [hr, Option.some.injEq] at h2
        subst h2
        simp [updateFun]

/-- Witness for C6: updating "$SYS/broker/uptime" with "5" and then "7"
leaves its value at 7, and 7 differs from the accumulated 5 + 7. -/
theorem c6_witness :
    ((processUpdate "$SYS/broker/uptime" "5" initState).bind
        (fun s1 => processUpdate "$SYS/broker/uptime" "7" s1)).map
      (fun s => (s.counterMetrics "$SYS/broker/uptime").map Metric.value) =
      some (some (parseValue "7")) ∧
    parseValue "7" ≠ parseValue "5" + parseValue "7" := by
  constructor
  · have hall : ((processUpdate "$SYS/broker/uptime" "5" initState).bind
        (fun s1 => processUpdate "$SYS/broker/uptime" "7" s1)).isSome = true := by decide
    cases hA : processUpdate "$SYS/broker/uptime" "5" initState with
    | none =>
      rw [hA] at hall
      simp at hall
    | some s1 =>
      cases hB : processUpdate "$SYS/broker/uptime" "7" s1 with
      | none =>
        rw [hA, Option.some_bind, hB] at hall
        simp at hall
      | some s2 =>
        have hmain := (c6_second_update_overwrites initState s1 s2 "$SYS/broker/uptime" "5" "7"
          (by decide) hA hB).1 (by decide)
        rw [Option.some_bind, hB, Option.map_some']
        rw [hmain]
  · rw [show parseValue "7" = 7 from by decide, show parseValue "5" = 5 from by decide]
    norm_num

/-- C8: the ignored and counter tables are disjoint; classification is
ignored-first, then counter, else gauge (processUpdate dispatches exactly
on classify); and in every reachable state no topic has entries in both
maps and no ignored topic has an entry in either map. -/
theorem c8_disjoint_and_classified :
    (∀ t : String, (List.lookup t ignoreKeyMetrics).isSome = true →
      (List.lookup t counterKeyMetrics).isSome = false) ∧
    (∀ (t p : String) (s : ExporterState),
      processUpdate t p s =
        match classify t with
        | Disposition.ignored => some s
        | Disposition.counter => processCounterMetric t p s
        | Disposition.gauge => processGaugeMetric t p s) ∧
    (∀ s : ExporterState, Reach s → ∀ t : String,
      ¬((s.counterMetrics t).isSome = true ∧ (s.gaugeMetrics t).isSome = true) ∧
      ((List.lookup t ignoreKeyMetrics).isSome = true →
        s.counterMetrics t = none ∧ s.gaugeMetrics t = none)) := by
  refine ⟨?_, ?_, ?_⟩
  · intro t h
    have hm := lookup_isSome_mem h
    simp only [ignoreKeyMetrics, List.map_cons, List.map_nil, List.mem_cons,
      List.not_mem_nil, or_false] at hm
    rcases hm with rfl | rfl | rfl | rfl <;> decide
  · intro t p s
    unfold processUpdate classify
    by_cases h1 : (List.lookup t ignoreKeyMetrics).isSome = true
    · rw [if_pos h1, if_pos h1]
    · rw [if_neg h1, if_neg h1]
      by_cases h2 : (List.lookup t counterKeyMetrics).isSome = true
      · rw [if_pos h2, if_pos h2]
      · rw [if_neg h2, if_neg h2]
  · intro s hreach t
    have hInv := reach_inv hreach
    refine ⟨?_, ?_⟩
    · rintro ⟨hcs, hgs⟩
      obtain ⟨mc, hmc⟩ := Option.isSome_iff_exists.mp hcs
      obtain ⟨mg, hmg⟩ := Option.isSome_iff_exists.mp hgs
      have hx := ((hInv t).1 mc hmc).1
      have hy := ((hInv t).2 mg hmg).1
      rw [hx] at hy
      exact absurd hy (by simp)
    · intro hig
      constructor
      · cases hmc : s.counterMetrics t with
        | none => rfl
        | some mc =>
          have hx := ((hInv t).1 mc hmc).2.1
          rw [hig] at hx
          exact absurd hx (by simp)
      · cases hmg : s.gaugeMetrics t with
        | none => rfl
        | some mg =>
          have hx := ((hInv t).2 mg hmg).2.1
          rw [hig] at hx
          exact absurd hx (by simp)

/-- Witness for C8: the ignored topic "$SYS/broker/version" is not a
counter topic, and in the (reachable) start state the ignored topic
"$SYS/broker/timestamp" has no entry in either map. -/
theorem c8_witness :
    (List.lookup "$SYS/broker/version" counterKeyMetrics).isSome = false ∧
    initState.counterMetrics "$SYS/broker/timestamp" = none ∧
    initState.gaugeMetrics "$SYS/broker/timestamp" = none :=
  ⟨c8_disjoint_and_classified.1 "$SYS/broker/version" (by decide),
   ((c8_disjoint_and_classified.2.2 initState Reach.init "$SYS/broker/timestamp").2
     (by decide)).1,
   ((c8_disjoint_and_classified.2.2 initState Reach.init "$SYS/broker/timestamp").2
     (by decide)).2⟩

end Mosquitto
